import Mathlib

/-!
Verification of the AGI Memory Engine (`MemoryEngine` class).

This file gives a shallow embedding of the trigger/memory engine: the data
model (triggers, memories, the persisted last-decay marker), the scoring and
decay routines, the two-phase message matcher, the extraction reconciliation
logic, link maintenance on create/delete, and the statistics aggregation.

Modelling conventions:
- JavaScript `Date` values (and ISO timestamp strings) are modelled as integer
  milliseconds since the epoch; an ISO calendar-date string `YYYY-MM-DD` is
  modelled by its UTC day number (milliseconds divided by `dayMs`, floored).
- The two `Map`s (`this.triggers`, `this.memories`) are modelled as lists in
  insertion order (a JS `Map` iterates in insertion order); `generateId` is
  modelled by a fresh-id counter `nextId` (the JS ids are unique in practice).
- `localStorage` persistence is modelled by a `saveCount` write counter and
  the `lastDecay` marker; `this.save()` bumps the counter.
- The remote Claude API is modelled by its response contract: a similarity
  call yields a `SimReply` (network error, non-OK response, non-numeric text,
  or a parsed number), an extraction call yields an `ExtractReply`.
- `this.apiKey` is configuration that no engine operation mutates; it is
  passed as an explicit argument to the operations that read it.
- JS string helpers (`toLowerCase`, `trim`, `includes`) are modelled by
  executable functions on the underlying character lists.
- `Array.prototype.sort` with a numeric comparator is modelled by a sort with
  respect to the corresponding relation (tie order is implementation-defined
  in the source and unused by every property proved here).
-/

namespace MemoryEngine

/-- Models JS `String.prototype.toLowerCase` (per-character lowering). -/
def jsToLower (s : String) : String := ⟨s.data.map Char.toLower⟩

/-- Models JS `String.prototype.trim` (strip whitespace at both ends). -/
def jsTrim (s : String) : String :=
  ⟨((s.data.dropWhile Char.isWhitespace).reverse.dropWhile Char.isWhitespace).reverse⟩

def jsIncludesAux : List Char → List Char → Bool
  | [], needle => needle.isEmpty
  | h :: t, needle => needle.isPrefixOf (h :: t) || jsIncludesAux t needle

/-- Models JS `String.prototype.includes` (substring test). -/
def jsIncludes (hay needle : String) : Bool := jsIncludesAux hay.data needle.data

-- Scoring constants from the `MemoryEngine` constructor.

def SCORE_NEW_TRIGGER : Int := 50
def SCORE_USAGE_BONUS : Int := 5
def SCORE_DECAY_PER_DAY : Int := 2
def SCORE_ACTIVE_THRESHOLD : Int := 50
def SCORE_ARCHIVE_THRESHOLD : Int := 20
def SIMILARITY_THRESHOLD : ℚ := 7/10

/-- Milliseconds per day, the `1000 * 60 * 60 * 24` of `calculateScore`. -/
def dayMs : Int := 1000 * 60 * 60 * 24

/-- A record of the `this.triggers` map. -/
structure Trigger where
  id : Nat
  word : String
  synonyms : List String
  score : Int
  usageCount : Nat
  lastUsed : Option Int
  memoryLinks : List Nat
  category : String
  createdAt : Int
  deriving DecidableEq, Repr

/-- A record of the `this.memories` map. -/
structure Memory where
  id : Nat
  content : String
  category : String
  importance : Int
  triggerLinks : List Nat
  createdAt : Int
  accessCount : Nat
  deriving DecidableEq, Repr

/-- Engine state: the two in-memory tables, the persisted last-decay day
marker, the fresh-id counter, and the persistence write counter. -/
structure EngineState where
  triggers : List Trigger
  memories : List Memory
  lastDecay : Option Int
  nextId : Nat
  saveCount : Nat
  deriving DecidableEq, Repr

/-- Models `this.save()` (serialize both tables to localStorage). -/
def save (s : EngineState) : EngineState := { s with saveCount := s.saveCount + 1 }

def emptyState : EngineState := ⟨[], [], none, 0, 0⟩

/-- The static synonyms dictionary from the constructor. -/
def synonyms : List (String × List String) :=
  [("femme", ["épouse", "conjointe", "compagne"]),
   ("mari", ["époux", "conjoint", "compagnon"]),
   ("travail", ["boulot", "job", "emploi", "profession", "métier"]),
   ("enfant", ["fils", "fille", "gamin", "gosse", "kid"]),
   ("maison", ["domicile", "appartement", "appart", "logement", "chez moi"]),
   ("voiture", ["auto", "véhicule", "bagnole", "caisse"]),
   ("argent", ["fric", "thune", "pognon", "sous", "finances"]),
   ("manger", ["bouffer", "dîner", "déjeuner", "repas"]),
   ("aimer", ["adorer", "kiffer", "apprécier", "affectionner"]),
   ("détester", ["haïr", "ne pas supporter", "avoir horreur"]),
   ("content", ["heureux", "joyeux", "ravi", "satisfait"]),
   ("triste", ["malheureux", "déprimé", "abattu", "morose"]),
   ("fatigué", ["épuisé", "crevé", "lessivé", "exténué"]),
   ("stressé", ["anxieux", "angoissé", "tendu", "nerveux"])]

/-- Models `[...new Set(result)]`: deduplicate keeping first occurrences. -/
def dedupFirst {α} [BEq α] (l : List α) : List α :=
  l.foldl (fun acc x => if acc.contains x then acc else acc ++ [x]) []

/-- `getSynonyms(word)`: direct synonyms of the lowered/trimmed word, then the
reverse lookup over every dictionary entry listing the word, deduplicated. -/
def getSynonyms (word : String) : List String :=
  let lowerWord := jsTrim (jsToLower word)
  let direct := ((synonyms.find? (fun p => p.1 = lowerWord)).map Prod.snd).getD []
  let result := synonyms.foldl
    (fun result p =>
      if p.2.contains lowerWord ∧ ¬ result.contains p.1 then
        result ++ [p.1] ++ p.2.filter (fun v => v ≠ lowerWord)
      else result)
    direct
  dedupFirst result

/-- `createTrigger(word, category, importance)`; returns the new trigger and
the updated state.  The JS default argument is `importance = 5`. -/
def createTrigger (s : EngineState) (word : String) (category : String)
    (importance : Int) (now : Int) : Trigger × EngineState :=
  let id := s.nextId
  let trigger : Trigger :=
    { id := id
      word := jsTrim (jsToLower word)
      synonyms := getSynonyms word
      score := SCORE_NEW_TRIGGER + importance * 2
      usageCount := 0
      lastUsed := none
      memoryLinks := []
      category := category
      createdAt := now }
  (trigger, { s with triggers := s.triggers ++ [trigger], nextId := id + 1 })

/-- One step of the `linkedTriggerIds.forEach` loop of `createMemory`:
`triggers.get(triggerId)` and, when found and not yet linked, push the new
memory id onto its `memoryLinks`. -/
def addMemoryLink (memId : Nat) (triggerId : Nat) (trs : List Trigger) : List Trigger :=
  trs.map (fun t =>
    if t.id = triggerId ∧ ¬ t.memoryLinks.contains memId then
      { t with memoryLinks := t.memoryLinks ++ [memId] }
    else t)

/-- `createMemory(content, category, importance, linkedTriggerIds)`. -/
def createMemory (s : EngineState) (content : String) (category : String)
    (importance : Int) (linkedTriggerIds : List Nat) (now : Int) :
    Memory × EngineState :=
  let id := s.nextId
  let memory : Memory :=
    { id := id
      content := content
      category := category
      importance := importance
      triggerLinks := linkedTriggerIds
      createdAt := now
      accessCount := 0 }
  let s := { s with memories := s.memories ++ [memory], nextId := id + 1 }
  (memory, { s with triggers := linkedTriggerIds.foldl (fun trs tid => addMemoryLink id tid trs) s.triggers })

/-- `calculateScore(trigger)`: computed (never stored) current score at time
`now`, `max(0, usageCount*2 + score - daysSinceUse*2)` with `daysSinceUse`
the floored day difference from `lastUsed` (or `createdAt` if never used). -/
def calculateScore (t : Trigger) (now : Int) : Int :=
  let lastUsed := t.lastUsed.getD t.createdAt
  let daysSinceUse := Int.fdiv (now - lastUsed) dayMs
  let baseScore := t.score
  let usageBonus := (t.usageCount : Int) * 2
  let decayPenalty := daysSinceUse * SCORE_DECAY_PER_DAY
  max 0 (usageBonus + baseScore - decayPenalty)

/-- The per-record mutation of `activateTrigger`. -/
def activateT (t : Trigger) (now : Int) : Trigger :=
  { t with
      usageCount := t.usageCount + 1
      lastUsed := some now
      score := t.score + SCORE_USAGE_BONUS }

/-- `activateTrigger(triggerId)`: silently no-ops when the id is unknown,
otherwise bumps usage, stamps `lastUsed`, adds the usage bonus and saves. -/
def activateTrigger (s : EngineState) (triggerId : Nat) (now : Int) : EngineState :=
  if s.triggers.any (fun t => t.id = triggerId) then
    save { s with triggers := s.triggers.map (fun t => if t.id = triggerId then activateT t now else t) }
  else s

/-- The decay pass of `applyDailyDecay` once the same-day guard has been
passed: floor every stored score at 0 after subtracting the decay, persist the
marker for today and save. -/
def decayRun (s : EngineState) (today daysSinceDecay : Int) : EngineState :=
  save { s with
    triggers := s.triggers.map (fun t =>
      { t with score := max 0 (t.score - daysSinceDecay * SCORE_DECAY_PER_DAY) })
    lastDecay := some today }

/-- `applyDailyDecay()`: the stored marker is the calendar day (modelled as
the UTC day number) of the most recent decay run; a run on the same calendar
day returns immediately.  `new Date(lastDecay)` parses the date string to
midnight, i.e. `lastDecay * dayMs`. -/
def applyDailyDecay (s : EngineState) (now : Int) : EngineState :=
  let today := Int.fdiv now dayMs
  match s.lastDecay with
  | some lastDecay =>
      if lastDecay = today then s
      else decayRun s today (Int.fdiv (now - lastDecay * dayMs) dayMs)
  | none => decayRun s today 1

/-- The `{ ...trigger, currentScore: score }` records of `getActiveTriggers`. -/
structure ScoredTrigger where
  trigger : Trigger
  currentScore : Int
  deriving DecidableEq, Repr

/-- The comparator `(a, b) => b.currentScore - a.currentScore`: sort
descending by computed score. -/
def scoreGe (a b : ScoredTrigger) : Prop := b.currentScore ≤ a.currentScore

instance : DecidableRel scoreGe := fun a b => Int.decLe b.currentScore a.currentScore

instance : IsTotal ScoredTrigger scoreGe := ⟨fun a b => le_total b.currentScore a.currentScore⟩

instance : IsTrans ScoredTrigger scoreGe := ⟨fun _ _ _ h1 h2 => le_trans h2 h1⟩

/-- `getActiveTriggers()`: every trigger whose computed score is at least
`SCORE_ARCHIVE_THRESHOLD`, decorated with that score and sorted descending. -/
def getActiveTriggers (s : EngineState) (now : Int) : List ScoredTrigger :=
  List.insertionSort scoreGe
    ((s.triggers.filter (fun t => SCORE_ARCHIVE_THRESHOLD ≤ calculateScore t now)).map
      (fun t => ⟨t, calculateScore t now⟩))

/-- `getHighPriorityTriggers()`. -/
def getHighPriorityTriggers (s : EngineState) (now : Int) : List ScoredTrigger :=
  (getActiveTriggers s now).filter (fun t => SCORE_ACTIVE_THRESHOLD ≤ t.currentScore)

/-- Contract of one similarity-oracle exchange, as consumed by
`computeSimilarity`: a thrown fetch error, a non-OK HTTP response, a reply
whose text does not parse as a number (`parseFloat` gives `NaN`), or a
parsed numeric score. -/
inductive SimReply
  | netErr
  | httpErr
  | nonNumeric
  | num (score : ℚ)
  deriving DecidableEq, Repr

/-- `computeSimilarity(text1, text2)`: 0 without any request when no API key
is configured; otherwise one oracle request whose failure modes all map to 0
and whose numeric result is clamped into `[0, 1]`.  The second component
records whether an oracle request was issued. -/
def computeSimilarity (apiKey : Option String) (oracle : String → String → SimReply)
    (text1 text2 : String) : ℚ × Bool :=
  match apiKey with
  | none => (0, false)
  | some _ =>
    match oracle text1 text2 with
    | .netErr => (0, true)
    | .httpErr => (0, true)
    | .nonNumeric => (0, true)
    | .num score => (min 1 (max 0 score), true)

/-- `quickMatch(message, trigger)`: the lowered message contains the
trigger's canonical word or any synonym as a substring. -/
def quickMatch (message : String) (t : Trigger) : Bool :=
  let lowerMessage := jsToLower message
  (t.word :: t.synonyms).any (fun word => jsIncludes lowerMessage word)

/-- An entry of `activatedTriggers`: phase-1 entries are pushed as-is
(`similarity = none`), phase-2 entries are spread with their similarity. -/
structure ActivatedTrigger where
  st : ScoredTrigger
  similarity : Option ℚ
  deriving DecidableEq, Repr

/-- The comparator `(a, b) => b.importance - a.importance` on memories. -/
def impGe (a b : Memory) : Prop := b.importance ≤ a.importance

instance : DecidableRel impGe := fun a b => Int.decLe b.importance a.importance

instance : IsTotal Memory impGe := ⟨fun a b => le_total b.importance a.importance⟩

instance : IsTrans Memory impGe := ⟨fun _ _ _ h1 h2 => le_trans h2 h1⟩

/-- Result of `scanMessage`, extended with the list of similarity-oracle
requests issued during the call and the post-scan engine state. -/
structure ScanOut where
  triggers : List ActivatedTrigger
  memories : List Memory
  queries : List (String × String)
  state : EngineState
  deriving DecidableEq, Repr

/-- One iteration of the phase-2 loop of `scanMessage` over a top non-match:
compute the similarity, record the request, and activate when the similarity
reaches `SIMILARITY_THRESHOLD`. -/
def semanticStep (apiKey : Option String) (oracle : String → String → SimReply)
    (message : String) (now : Int)
    (acc : List ActivatedTrigger × EngineState × List (String × String))
    (st : ScoredTrigger) :
    List ActivatedTrigger × EngineState × List (String × String) :=
  let sim := computeSimilarity apiKey oracle message st.trigger.word
  let queries := if sim.2 then acc.2.2 ++ [(message, st.trigger.word)] else acc.2.2
  if SIMILARITY_THRESHOLD ≤ sim.1 then
    (acc.1 ++ [⟨st, some sim.1⟩], activateTrigger acc.2.1 st.trigger.id now, queries)
  else (acc.1, acc.2.1, queries)

/-- The phase-2 candidate pool: active triggers that did not lexically
match (`activeTriggers.filter(t => !quickMatches.includes(t))`), in the
descending-score order inherited from `getActiveTriggers`. -/
def activeNonMatches (s : EngineState) (now : Int) (message : String) : List ScoredTrigger :=
  (getActiveTriggers s now).filter (fun t => !(quickMatch message t.trigger))

/-- `scanMessage(message)`: phase 1 activates every lexical match, phase 2
takes the top 5 remaining candidates by computed score and activates those
whose oracle similarity reaches the threshold, then the linked memories are
collected (deduplicated), access-counted and sorted by importance. -/
def scanMessage (apiKey : Option String) (s : EngineState) (now : Int) (message : String)
    (oracle : String → String → SimReply) : ScanOut :=
  let activeTriggers := getActiveTriggers s now
  let quickMatches := activeTriggers.filter (fun t => quickMatch message t.trigger)
  let nonMatches := activeTriggers.filter (fun t => !(quickMatch message t.trigger))
  let s1 := quickMatches.foldl (fun s t => activateTrigger s t.trigger.id now) s
  let activatedQuick := quickMatches.map (fun t => ActivatedTrigger.mk t none)
  let topNonMatches := nonMatches.take 5
  let semOut := topNonMatches.foldl (semanticStep apiKey oracle message now) ([], s1, [])
  let activatedTriggers := activatedQuick ++ semOut.1
  let memoryIds := dedupFirst (activatedTriggers.foldl (fun ids a => ids ++ a.st.trigger.memoryLinks) [])
  let relevantMemories := memoryIds.filterMap (fun mid =>
    (semOut.2.1.memories.find? (fun m => m.id = mid)).map
      (fun m => { m with accessCount := m.accessCount + 1 }))
  let s3 := { semOut.2.1 with
    memories := semOut.2.1.memories.map (fun m =>
      if memoryIds.contains m.id then { m with accessCount := m.accessCount + 1 } else m) }
  ⟨activatedTriggers, List.insertionSort impGe relevantMemories, semOut.2.2, s3⟩

/-- A trigger proposal inside the extraction oracle's structured reply. -/
structure ExtractedTrigger where
  mot : String
  categorie : String
  synonymes_suggeres : Option (List String)
  deriving DecidableEq, Repr

/-- The memory proposal inside the extraction oracle's structured reply.
`categorie` and `importance` are optional; absent (or falsy) values fall back
to `'autre'` and `5` respectively. -/
structure ExtractedMemoire where
  contenu : String
  categorie : Option String
  importance : Option Int
  deriving DecidableEq, Repr

/-- The parsed structured block of an extraction reply. -/
structure Extracted where
  important : Bool
  memoire : Option ExtractedMemoire
  triggers : Option (List ExtractedTrigger)
  deriving DecidableEq, Repr

/-- Contract of one extraction-oracle exchange: thrown fetch error, non-OK
response, a reply with no structured block anywhere (`text.match` fails), a
block `JSON.parse` throws on, or a parsed block. -/
inductive ExtractReply
  | netErr
  | httpErr
  | noJson
  | badJson
  | ok (extracted : Extracted)
  deriving DecidableEq, Repr

/-- `extracted.memoire.categorie || 'autre'`. -/
def memCategorie (m : ExtractedMemoire) : String :=
  match m.categorie with
  | none => "autre"
  | some c => if c = "" then "autre" else c

/-- `extracted.memoire.importance || 5` (a falsy 0 also falls back to 5). -/
def memImportance (m : ExtractedMemoire) : Int :=
  match m.importance with
  | none => 5
  | some i => if i = 0 then 5 else i

/-- The duplicate-detection loop of `extractAndStore`:
`this.triggers.forEach` keeps the *last* trigger whose canonical word equals
the proposal's normalized word. -/
def findTriggerByWord (trs : List Trigger) (word : String) : Option Trigger :=
  trs.foldl (fun found t => if t.word = word then some t else found) none

/-- Merging of newly suggested synonyms into an existing trigger
(lower-cased, no trim, case-insensitive duplicate skip). -/
def mergeSyns (t : Trigger) (suggested : List String) : Trigger :=
  { t with synonyms := suggested.foldl (fun syns syn =>
      if syns.contains (jsToLower syn) then syns else syns ++ [jsToLower syn]) t.synonyms }

/-- Merging of suggested synonyms into a freshly created trigger
(lower-cased and trimmed, duplicate skip). -/
def mergeSynsTrim (t : Trigger) (suggested : List String) : Trigger :=
  { t with synonyms := suggested.foldl (fun syns syn =>
      if syns.contains (jsTrim (jsToLower syn)) then syns
      else syns ++ [jsTrim (jsToLower syn)]) t.synonyms }

/-- One iteration of the reconciliation loop of `extractAndStore` over a
proposed trigger: reuse-and-activate an existing trigger of the same
canonical word (merging suggested synonyms), else create a new trigger when
the normalized word is longer than 2 characters. -/
def extractTriggerStep (now : Int) (acc : List Nat × EngineState) (t : ExtractedTrigger) :
    List Nat × EngineState :=
  let word := jsTrim (jsToLower t.mot)
  match findTriggerByWord acc.2.triggers word with
  | some existingTrigger =>
      let s := activateTrigger acc.2 existingTrigger.id now
      (acc.1 ++ [existingTrigger.id],
       { s with triggers := s.triggers.map (fun tr =>
           if tr.id = existingTrigger.id then mergeSyns tr (t.synonymes_suggeres.getD []) else tr) })
  | none =>
      if 2 < word.length then
        let created := createTrigger acc.2 word t.categorie 5 now
        (acc.1 ++ [created.1.id],
         { created.2 with triggers := created.2.triggers.map (fun tr =>
             if tr.id = created.1.id then mergeSynsTrim tr (t.synonymes_suggeres.getD []) else tr) })
      else acc

/-- Return value of `extractAndStore` on the successful path:
`{ memory, triggers: triggerIds.map(id => this.triggers.get(id)) }`. -/
structure ExtractResult where
  memory : Option Memory
  triggers : List (Option Trigger)
  deriving DecidableEq, Repr

/-- Result of `extractAndStore`, extended with the post-call engine state
and whether an extraction-oracle request was issued. -/
structure ExtractOut where
  result : Option ExtractResult
  state : EngineState
  queried : Bool
  deriving DecidableEq, Repr

/-- `extractAndStore(message)`: null without any request when no key is
configured; null (with no state change) on any oracle failure, on a reply
with no parsable structured block, or when the reply is marked unimportant;
otherwise reconcile the proposed triggers, create the proposed memory linked
to every produced trigger id, and save. -/
def extractAndStore (apiKey : Option String) (s : EngineState) (reply : ExtractReply)
    (now : Int) : ExtractOut :=
  match apiKey with
  | none => ⟨none, s, false⟩
  | some _ =>
    match reply with
    | .netErr => ⟨none, s, true⟩
    | .httpErr => ⟨none, s, true⟩
    | .noJson => ⟨none, s, true⟩
    | .badJson => ⟨none, s, true⟩
    | .ok extracted =>
      if extracted.important then
        let r1 := (extracted.triggers.getD []).foldl (extractTriggerStep now) ([], s)
        let r2 :=
          match extracted.memoire with
          | some memoire =>
              if memoire.contenu ≠ "" then
                let created := createMemory r1.2 memoire.contenu (memCategorie memoire)
                    (memImportance memoire) r1.1 now
                ((some created.1 : Option Memory), created.2)
              else (none, r1.2)
          | none => (none, r1.2)
        let s3 := save r2.2
        ⟨some ⟨r2.1, r1.1.map (fun tid => s3.triggers.find? (fun t => t.id = tid))⟩, s3, true⟩
      else ⟨none, s, true⟩

/-- One step of the back-reference cleanup loop of `deleteMemory`. -/
def removeMemoryLink (memId : Nat) (triggerId : Nat) (trs : List Trigger) : List Trigger :=
  trs.map (fun t =>
    if t.id = triggerId then { t with memoryLinks := t.memoryLinks.filter (fun mId => mId ≠ memId) }
    else t)

/-- `deleteMemory(id)`: no-op on an unknown id, otherwise strip the memory's
id from the `memoryLinks` of every trigger it references, remove it, save. -/
def deleteMemory (s : EngineState) (id : Nat) : EngineState :=
  match s.memories.find? (fun m => m.id = id) with
  | none => s
  | some memory =>
      save { s with
        triggers := memory.triggerLinks.foldl (fun trs tid => removeMemoryLink id tid trs) s.triggers
        memories := s.memories.filter (fun m => m.id ≠ id) }

/-- One step of the back-reference cleanup loop of `deleteTrigger`. -/
def removeTriggerLink (triggerId : Nat) (memoryId : Nat) (mems : List Memory) : List Memory :=
  mems.map (fun m =>
    if m.id = memoryId then { m with triggerLinks := m.triggerLinks.filter (fun tId => tId ≠ triggerId) }
    else m)

/-- `deleteTrigger(id)`: symmetric to `deleteMemory`. -/
def deleteTrigger (s : EngineState) (id : Nat) : EngineState :=
  match s.triggers.find? (fun t => t.id = id) with
  | none => s
  | some trigger =>
      save { s with
        memories := trigger.memoryLinks.foldl (fun mems mid => removeTriggerLink id mid mems) s.memories
        triggers := s.triggers.filter (fun t => t.id ≠ id) }

/-- Return value of `getStats()`. -/
structure Stats where
  totalTriggers : Nat
  activeTriggers : Nat
  archivedTriggers : Nat
  totalMemories : Nat
  memoriesByCategory : List (String × Nat)
  triggersByCategory : List (String × Nat)
  deriving DecidableEq, Repr

/-- One step of `countByCategory`: bump the count stored under a category. -/
def bumpCount (counts : List (String × Nat)) (cat : String) : List (String × Nat) :=
  if counts.any (fun p => p.1 = cat) then
    counts.map (fun p => if p.1 = cat then (p.1, p.2 + 1) else p)
  else counts ++ [(cat, 1)]

/-- `countByCategory(items)` over any item type with a category field
(`item.category || 'autre'`). -/
def countByCategory {α} (categoryOf : α → String) (items : List α) : List (String × Nat) :=
  items.foldl (fun counts item =>
    bumpCount counts (if categoryOf item = "" then "autre" else categoryOf item)) []

/-- `getStats()`: `activeTriggers`/`archivedTriggers` partition the
*active-trigger list* (computed score at least the archive threshold) by the
active threshold; `totalTriggers` counts the whole table. -/
def getStats (s : EngineState) (now : Int) : Stats :=
  let triggers := getActiveTriggers s now
  let memories := s.memories
  { totalTriggers := s.triggers.length
    activeTriggers := (triggers.filter (fun t => SCORE_ACTIVE_THRESHOLD ≤ t.currentScore)).length
    archivedTriggers := (triggers.filter (fun t => t.currentScore < SCORE_ACTIVE_THRESHOLD)).length
    totalMemories := memories.length
    memoriesByCategory := countByCategory Memory.category memories
    triggersByCategory := countByCategory (fun st => st.trigger.category) triggers }

/-- The engine operations quantified over by the link-symmetry invariant:
explicit trigger/memory creation, extraction, and the two deletions.  Each
operation carries the caller-chosen arguments (for `opExtract`, the
configured API key and the oracle's reply). -/
inductive Op
  | opCreateTrigger (word category : String) (importance : Int)
  | opCreateMemory (content category : String) (importance : Int) (links : List Nat)
  | opExtract (apiKey : Option String) (reply : ExtractReply)
  | opDeleteTrigger (id : Nat)
  | opDeleteMemory (id : Nat)
  deriving DecidableEq, Repr

/-- Interpretation of one engine operation at time `now`. -/
def step (s : EngineState) (now : Int) (op : Op) : EngineState :=
  match op with
  | .opCreateTrigger word category importance => (createTrigger s word category importance now).2
  | .opCreateMemory content category importance links =>
      (createMemory s content category importance links now).2
  | .opExtract apiKey reply => (extractAndStore apiKey s reply now).state
  | .opDeleteTrigger id => deleteTrigger s id
  | .opDeleteMemory id => deleteMemory s id

/-- Run a sequence of timestamped engine operations. -/
def run (s : EngineState) : List (Int × Op) → EngineState
  | [] => s
  | op :: ops => run (step s op.1 op.2) ops

/-- The bidirectional-link invariant: symmetry between `memoryLinks` and
`triggerLinks`, and no entry of either references an id absent from the
other table. -/
def linkInv (s : EngineState) : Prop :=
  (∀ t ∈ s.triggers, ∀ m ∈ s.memories, (m.id ∈ t.memoryLinks ↔ t.id ∈ m.triggerLinks)) ∧
  (∀ t ∈ s.triggers, ∀ mid ∈ t.memoryLinks, ∃ m ∈ s.memories, m.id = mid) ∧
  (∀ m ∈ s.memories, ∀ tid ∈ m.triggerLinks, ∃ t ∈ s.triggers, t.id = tid)

instance (s : EngineState) : Decidable (linkInv s) := by unfold linkInv; infer_instance

/-- Validity of one operation in a state: `createMemory` must be called with
trigger ids that exist (as the engine's own caller, `extractAndStore`,
always does); every other operation is unconditionally valid. -/
def opValid (s : EngineState) (op : Op) : Prop :=
  match op with
  | .opCreateMemory _ _ _ links => ∀ tid ∈ links, ∃ t ∈ s.triggers, t.id = tid
  | _ => True

instance (s : EngineState) (op : Op) : Decidable (opValid s op) := by
  unfold opValid; cases op <;> infer_instance

/-- Validity of a whole operation sequence, checked along the run. -/
def validRun (s : EngineState) : List (Int × Op) → Prop
  | [] => True
  | op :: ops => opValid s op.2 ∧ validRun (step s op.1 op.2) ops

instance (s : EngineState) (ops : List (Int × Op)) : Decidable (validRun s ops) := by
  induction ops generalizing s with
  | nil => exact .isTrue trivial
  | cons op ops ih => unfold validRun; have := ih (step s op.1 op.2); infer_instance

/-- The body of `calculateScore` as a function of the number of elapsed idle
days, used to state monotonicity in that number. -/
def scoreAtDays (t : Trigger) (d : Int) : Int :=
  max 0 ((t.usageCount : Int) * 2 + t.score - d * SCORE_DECAY_PER_DAY)

/-- A bare trigger record (no synonyms, no usage, no links) with the given
id, word and stored score, created at time 0. -/
def mkPlainTrigger (id : Nat) (word : String) (score : Int) : Trigger :=
  ⟨id, word, [], score, 0, none, [], "autre", 0⟩

/-- The trigger of the archive-threshold scenario: created explicitly with
importance 5 (stored score 60), never used. -/
def scenarioTrigger (c : Int) : Trigger := (createTrigger emptyState "travail" "autre" 5 c).1

/-- The one-trigger store of the archive-threshold scenario. -/
def scenarioState (c : Int) : EngineState := (createTrigger emptyState "travail" "autre" 5 c).2

/-- A store with one trigger, for exercising `activateTrigger`. -/
def activateWitnessState : EngineState := ⟨[mkPlainTrigger 0 "t" 50], [], none, 1, 0⟩

/-- A store with seven equally scored active triggers, none of which matches
the message "zzz" lexically, for exercising the phase-2 cap. -/
def scanWitnessState : EngineState :=
  ⟨[mkPlainTrigger 0 "aaa0" 100, mkPlainTrigger 1 "aaa1" 100, mkPlainTrigger 2 "aaa2" 100,
    mkPlainTrigger 3 "aaa3" 100, mkPlainTrigger 4 "aaa4" 100, mkPlainTrigger 5 "aaa5" 100,
    mkPlainTrigger 6 "aaa6" 100], [], none, 7, 0⟩

/-- A store with one high-scoring and one decayed-out trigger, for
exercising the statistics partition. -/
def statsWitnessState : EngineState :=
  ⟨[mkPlainTrigger 0 "high" 100, mkPlainTrigger 1 "low" 0], [], none, 2, 0⟩

-- ===========================================================================
-- Theorems
-- ===========================================================================

/-- C1: the computed current score is
`max(0, usageCount*2 + score - floor(days since lastUsed ?? createdAt)*2)`;
it is non-negative, monotonically non-increasing in the number of elapsed
idle days, and non-increasing in the evaluation time, all other fields held
constant. -/
theorem calculateScore_spec (t : Trigger) (now : Int) :
    calculateScore t now
      = max 0 ((t.usageCount : Int) * 2 + t.score
          - Int.fdiv (now - t.lastUsed.getD t.createdAt) dayMs * 2) ∧
    0 ≤ calculateScore t now ∧
    (∀ d d' : Int, d ≤ d' → scoreAtDays t d' ≤ scoreAtDays t d) ∧
    (∀ now' : Int, now ≤ now' → calculateScore t now' ≤ calculateScore t now) := by
  refine ⟨rfl, le_max_left 0 _, ?_, ?_⟩
  · intro d d' h
    simp only [scoreAtDays, SCORE_DECAY_PER_DAY]
    omega
  · intro now' h
    have hb : (0 : Int) ≤ dayMs := by norm_num [dayMs]
    have hd : Int.fdiv (now - t.lastUsed.getD t.createdAt) dayMs
        ≤ Int.fdiv (now' - t.lastUsed.getD t.createdAt) dayMs := by
      rw [Int.fdiv_eq_ediv _ hb, Int.fdiv_eq_ediv _ hb]
      exact Int.ediv_le_ediv (by norm_num [dayMs]) (by omega)
    have e1 : calculateScore t now = max 0 ((t.usageCount : Int) * 2 + t.score
        - Int.fdiv (now - t.lastUsed.getD t.createdAt) dayMs * 2) := rfl
    have e2 : calculateScore t now' = max 0 ((t.usageCount : Int) * 2 + t.score
        - Int.fdiv (now' - t.lastUsed.getD t.createdAt) dayMs * 2) := rfl
    rw [e1, e2]
    set a := Int.fdiv (now - t.lastUsed.getD t.createdAt) dayMs
    set b := Int.fdiv (now' - t.lastUsed.getD t.createdAt) dayMs
    omega

/-- Closed instance of `calculateScore_spec`: non-negativity, monotonicity in
days and in time at concrete inputs. -/
theorem calculateScore_spec_witness :
    0 ≤ calculateScore (mkPlainTrigger 0 "t" 50) 5 ∧
    scoreAtDays (mkPlainTrigger 0 "t" 50) 2 ≤ scoreAtDays (mkPlainTrigger 0 "t" 50) 1 ∧
    calculateScore (mkPlainTrigger 0 "t" 50) dayMs ≤ calculateScore (mkPlainTrigger 0 "t" 50) 0 :=
  ⟨(calculateScore_spec (mkPlainTrigger 0 "t" 50) 5).2.1,
   (calculateScore_spec (mkPlainTrigger 0 "t" 50) 5).2.2.1 1 2 (by decide),
   (calculateScore_spec (mkPlainTrigger 0 "t" 50) 0).2.2.2 dayMs (by decide)⟩

/-- C5: a second `applyDailyDecay` run within the same calendar day (same UTC
day number) leaves the whole state unchanged: no trigger score changes and
the persisted last-decay marker is not updated. -/
theorem applyDailyDecay_idempotent (s : EngineState) (now now' : Int)
    (h : Int.fdiv now' dayMs = Int.fdiv now dayMs) :
    applyDailyDecay (applyDailyDecay s now) now' = applyDailyDecay s now := by
  have hmark : (applyDailyDecay s now).lastDecay = some (Int.fdiv now dayMs) := by
    unfold applyDailyDecay
    cases hl : s.lastDecay with
    | none => simp [decayRun, save]
    | some d =>
        by_cases hd : d = Int.fdiv now dayMs
        · simp [hd, hl]
        · simp [hd, decayRun, save]
  have hsame : ∀ r : EngineState, r.lastDecay = some (Int.fdiv now' dayMs) →
      applyDailyDecay r now' = r := by
    intro r hr
    unfold applyDailyDecay
    rw [hr]
    simp
  exact hsame _ (by rw [hmark, h])

/-- Closed instance of `applyDailyDecay_idempotent` at times 0 and 100 of the
same day. -/
theorem applyDailyDecay_idempotent_witness :
    applyDailyDecay (applyDailyDecay emptyState 0) 100 = applyDailyDecay emptyState 0 :=
  applyDailyDecay_idempotent emptyState 0 100 (by decide)

/-- C6: an extraction reply with no structured block, or one marked
unimportant, yields a nil result, leaves the whole state (both tables and
the write counter) unchanged, and performs no persistence write. -/
theorem extractAndStore_no_result_no_effect (apiKey : Option String) (s : EngineState)
    (now : Int) :
    extractAndStore apiKey s .noJson now = ⟨none, s, apiKey.isSome⟩ ∧
    (∀ extracted : Extracted, extracted.important = false →
      extractAndStore apiKey s (.ok extracted) now = ⟨none, s, apiKey.isSome⟩) := by
  constructor
  · cases apiKey <;> rfl
  · intro extracted he
    cases apiKey with
    | none => rfl
    | some k => simp [extractAndStore, he]

/-- Closed instance of `extractAndStore_no_result_no_effect` on an
`important:false` reply. -/
theorem extractAndStore_no_result_no_effect_witness :
    extractAndStore (some "k") emptyState (.ok ⟨false, none, none⟩) 0
      = ⟨none, emptyState, true⟩ :=
  (extractAndStore_no_result_no_effect (some "k") emptyState 0).2 ⟨false, none, none⟩ rfl

/-- `find?` by id through the update map of `activateTrigger`. -/
theorem find?_map_activate (l : List Trigger) (id : Nat) (now : Int) (t : Trigger)
    (h : l.find? (fun tr => tr.id = id) = some t) :
    (l.map (fun tr => if tr.id = id then activateT tr now else tr)).find?
        (fun tr => tr.id = id) = some (activateT t now) := by
  induction l with
  | nil => simp at h
  | cons a rest ih =>
      by_cases ha : a.id = id
      · rw [List.find?_cons_of_pos _ (by simpa using ha)] at h
        cases h
        simp only [List.map_cons]
        rw [if_pos ha]
        exact List.find?_cons_of_pos _ (by simpa [activateT] using ha)
      · rw [List.find?_cons_of_neg _ (by simpa using ha)] at h
        simp only [List.map_cons]
        rw [if_neg ha]
        rw [List.find?_cons_of_neg _ (by simpa using ha)]
        exact ih h

/-- C7: for a trigger present in the store, `activateTrigger` turns its
record into `activateT` (usage count up by exactly 1), and its computed
score evaluated at the same instant does not decrease, provided its
reference timestamp is not in the future. -/
theorem activateTrigger_spec (s : EngineState) (id : Nat) (now : Int) (t : Trigger)
    (hfind : s.triggers.find? (fun tr => tr.id = id) = some t)
    (hpast : t.lastUsed.getD t.createdAt ≤ now) :
    (activateTrigger s id now).triggers.find? (fun tr => tr.id = id)
        = some (activateT t now) ∧
    (activateT t now).usageCount = t.usageCount + 1 ∧
    calculateScore t now ≤ calculateScore (activateT t now) now := by
  have hmem := List.mem_of_find?_eq_some hfind
  have hid : t.id = id := by simpa using List.find?_some hfind
  have hany : s.triggers.any (fun tr => tr.id = id) = true :=
    List.any_eq_true.mpr ⟨t, hmem, by simpa using hid⟩
  refine ⟨?_, rfl, ?_⟩
  · simp only [activateTrigger, hany, if_true]
    exact find?_map_activate _ _ _ _ hfind
  · have e1 : calculateScore t now = max 0 ((t.usageCount : Int) * 2 + t.score
        - Int.fdiv (now - t.lastUsed.getD t.createdAt) dayMs * 2) := rfl
    have e2 : calculateScore (activateT t now) now
        = max 0 (((t.usageCount : Nat) + 1 : Int) * 2 + (t.score + SCORE_USAGE_BONUS)
            - Int.fdiv (now - now) dayMs * 2) := by
      push_cast [calculateScore, activateT]
      rfl
    have hz : Int.fdiv (now - now) dayMs = 0 := by
      rw [sub_self, Int.zero_fdiv]
    have hnn : 0 ≤ Int.fdiv (now - t.lastUsed.getD t.createdAt) dayMs := by
      rw [Int.fdiv_eq_ediv _ (by norm_num [dayMs])]
      exact Int.ediv_nonneg (by omega) (by norm_num [dayMs])
    rw [e1, e2, hz]
    simp only [SCORE_USAGE_BONUS]
    set a := Int.fdiv (now - t.lastUsed.getD t.createdAt) dayMs
    omega

/-- Closed instance of `activateTrigger_spec` on a one-trigger store. -/
theorem activateTrigger_spec_witness :
    (activateTrigger activateWitnessState 0 5).triggers.find? (fun tr => tr.id = 0)
        = some (activateT (mkPlainTrigger 0 "t" 50) 5) ∧
    (activateT (mkPlainTrigger 0 "t" 50) 5).usageCount
        = (mkPlainTrigger 0 "t" 50).usageCount + 1 ∧
    calculateScore (mkPlainTrigger 0 "t" 50) 5
        ≤ calculateScore (activateT (mkPlainTrigger 0 "t" 50) 5) 5 :=
  activateTrigger_spec activateWitnessState 0 5 (mkPlainTrigger 0 "t" 50)
    (by decide) (by decide)

/-- C8: a trigger with stored score 60, never used, evaluated exactly 20
days after creation, has computed score exactly 20 — equal to the archive
threshold — and is still included in the active-trigger list. -/
theorem threshold_trigger_still_active (c : Int) :
    (scenarioTrigger c).score = 60 ∧
    (scenarioTrigger c).usageCount = 0 ∧
    (scenarioTrigger c).lastUsed = none ∧
    calculateScore (scenarioTrigger c) (c + 20 * dayMs) = 20 ∧
    SCORE_ARCHIVE_THRESHOLD = 20 ∧
    getActiveTriggers (scenarioState c) (c + 20 * dayMs) = [⟨scenarioTrigger c, 20⟩] := by
  have hscore : calculateScore (scenarioTrigger c) (c + 20 * dayMs) = 20 := by
    have e1 : calculateScore (scenarioTrigger c) (c + 20 * dayMs)
        = max 0 (0 * 2 + 60 - Int.fdiv (c + 20 * dayMs - c) dayMs * 2) := rfl
    rw [e1]
    have h2 : c + 20 * dayMs - c = 20 * dayMs := by ring
    rw [h2, Int.mul_fdiv_cancel _ (by norm_num [dayMs])]
    decide
  refine ⟨rfl, rfl, rfl, hscore, rfl, ?_⟩
  have htr : (scenarioState c).triggers = [scenarioTrigger c] := rfl
  have hp : decide (SCORE_ARCHIVE_THRESHOLD
      ≤ calculateScore (scenarioTrigger c) (c + 20 * dayMs)) = true := by
    rw [hscore]; decide
  simp only [getActiveTriggers, htr, List.filter_cons, hp, if_true, List.filter_nil,
    List.map_cons, List.map_nil, hscore, List.insertionSort, List.orderedInsert]

/-- C2 as stated is false on the code: the extraction path calls
`createTrigger(word, t.categorie)` without passing an importance, so a
trigger created from an extraction whose proposed importance is 10 gets
stored score 60, not `SCORE_NEW_TRIGGER + 10*2 = 70`. -/
theorem extract_new_trigger_score_counterexample :
    ((extractAndStore (some "k") emptyState
        (.ok { important := true,
               memoire := some { contenu := "Il aime Paris", categorie := some "lieu",
                                 importance := some 10 },
               triggers := some [{ mot := "Paris", categorie := "lieu",
                                   synonymes_suggeres := none }] })
        0).state.triggers.map Trigger.score) = [60] ∧
    (60 : Int) ≠ SCORE_NEW_TRIGGER + 10 * 2 := by
  refine ⟨by decide, by decide⟩

/-- C2 amended: a trigger word newly created by `extractAndStore` (normalized
word longer than 2 characters, no existing trigger of that canonical word)
always gets stored score `SCORE_NEW_TRIGGER + 5*2 = 60` — `createTrigger`'s
default importance 5 — regardless of any oracle-proposed importance. -/
theorem extract_new_trigger_score_amended (acc : List Nat × EngineState)
    (et : ExtractedTrigger) (now : Int)
    (hnew : findTriggerByWord acc.2.triggers (jsTrim (jsToLower et.mot)) = none)
    (hlen : 2 < (jsTrim (jsToLower et.mot)).length) :
    ((extractTriggerStep now acc et).2.triggers.getLast?).map Trigger.score = some 60 ∧
    (∀ (s : EngineState) (word category : String) (now' : Int),
      (createTrigger s word category 5 now').1.score = SCORE_NEW_TRIGGER + 5 * 2) := by
  constructor
  · simp only [extractTriggerStep, hnew]
    rw [if_pos hlen]
    simp only [createTrigger, List.map_append, List.map_cons, List.map_nil,
      List.getLast?_concat, if_pos rfl]
    simp [mergeSynsTrim, SCORE_NEW_TRIGGER]
  · intro s word category now'
    rfl

/-- Closed instance of `extract_new_trigger_score_amended` on the word
"paris" over an empty store. -/
theorem extract_new_trigger_score_amended_witness :
    ((extractTriggerStep 0 ([], emptyState)
        ⟨"paris", "lieu", none⟩).2.triggers.getLast?).map Trigger.score = some 60 ∧
    (createTrigger emptyState "mot" "autre" 5 0).1.score = SCORE_NEW_TRIGGER + 5 * 2 :=
  ⟨(extract_new_trigger_score_amended ([], emptyState) ⟨"paris", "lieu", none⟩ 0
      (by decide) (by decide)).1,
   (extract_new_trigger_score_amended ([], emptyState) ⟨"paris", "lieu", none⟩ 0
      (by decide) (by decide)).2 emptyState "mot" "autre" 0⟩

/-- With no API key, the phase-2 fold of `scanMessage` is the identity: no
similarity ever reaches the threshold and no request is recorded. -/
theorem semanticStep_fold_no_key (oracle : String → String → SimReply) (message : String)
    (now : Int) (l : List ScoredTrigger)
    (acc : List ActivatedTrigger × EngineState × List (String × String)) :
    l.foldl (semanticStep none oracle message now) acc = acc := by
  induction l generalizing acc with
  | nil => rfl
  | cons st rest ih =>
      rw [List.foldl_cons]
      have hstep : semanticStep none oracle message now acc st = acc := by
        simp only [semanticStep, computeSimilarity]
        rw [if_neg (by norm_num [SIMILARITY_THRESHOLD])]
        rfl
      rw [hstep]
      exact ih acc

/-- C9: with no API key configured, `extractAndStore` returns null with no
oracle request and no state change, `computeSimilarity` returns 0 with no
request, and `scanMessage` records no request and activates exactly the
lexical matches. -/
theorem no_api_key_degrades (s : EngineState) (reply : ExtractReply) (now : Int)
    (oracle : String → String → SimReply) (message t1 t2 : String) :
    extractAndStore none s reply now = ⟨none, s, false⟩ ∧
    computeSimilarity none oracle t1 t2 = (0, false) ∧
    (scanMessage none s now message oracle).queries = [] ∧
    (scanMessage none s now message oracle).triggers
      = ((getActiveTriggers s now).filter (fun t => quickMatch message t.trigger)).map
          (fun t => ActivatedTrigger.mk t none) := by
  refine ⟨rfl, rfl, ?_, ?_⟩
  · simp only [scanMessage, semanticStep_fold_no_key]
  · simp only [scanMessage, semanticStep_fold_no_key, List.append_nil]

/-- Two complementary filters partition a list's length. -/
theorem length_filter_partition {α} (l : List α) (p q : α → Bool)
    (h : ∀ a, q a = !(p a)) :
    (l.filter p).length + (l.filter q).length = l.length := by
  induction l with
  | nil => rfl
  | cons a rest ih =>
      rw [List.filter_cons, List.filter_cons, h a]
      cases hp : p a
      · rw [if_neg (by simp [hp]), if_pos (by simp [hp])]
        simp only [List.length_cons]
        omega
      · rw [if_pos (by simp [hp]), if_neg (by simp [hp])]
        simp only [List.length_cons]
        omega

/-- C10: `activeTriggers + archivedTriggers` counts exactly the triggers
whose computed score is at least the archive threshold; it never exceeds
`totalTriggers`, and is strictly below it whenever some trigger's computed
score is below the archive threshold (such a trigger is counted in
neither bucket). -/
theorem getStats_partition (s : EngineState) (now : Int) :
    (getStats s now).activeTriggers + (getStats s now).archivedTriggers
      = (s.triggers.filter (fun t => SCORE_ARCHIVE_THRESHOLD ≤ calculateScore t now)).length ∧
    (getStats s now).activeTriggers + (getStats s now).archivedTriggers
      ≤ (getStats s now).totalTriggers ∧
    (∀ t ∈ s.triggers, calculateScore t now < SCORE_ARCHIVE_THRESHOLD →
      (getStats s now).activeTriggers + (getStats s now).archivedTriggers
        < (getStats s now).totalTriggers) := by
  have hpart : (getStats s now).activeTriggers + (getStats s now).archivedTriggers
      = (getActiveTriggers s now).length := by
    simp only [getStats]
    exact length_filter_partition _ _ _ (fun a => by
      rw [← decide_not]
      exact decide_eq_decide.mpr lt_iff_not_le)
  have hlen : (getActiveTriggers s now).length
      = (s.triggers.filter (fun t => SCORE_ARCHIVE_THRESHOLD ≤ calculateScore t now)).length := by
    simp only [getActiveTriggers]
    rw [(List.perm_insertionSort _ _).length_eq, List.length_map]
  have htot : (getStats s now).totalTriggers = s.triggers.length := rfl
  refine ⟨hpart.trans hlen, ?_, ?_⟩
  · rw [hpart.trans hlen, htot]
    exact List.length_filter_le _ _
  · intro t ht hlt
    rw [hpart.trans hlen, htot]
    exact List.length_filter_lt_length_iff_exists.mpr
      ⟨t, ht, by simpa using not_le.mpr hlt⟩

/-- Closed instance of `getStats_partition`: with one high-scoring and one
fully decayed trigger the two buckets together count strictly fewer triggers
than the table holds. -/
theorem getStats_partition_witness :
    (getStats statsWitnessState 0).activeTriggers
        + (getStats statsWitnessState 0).archivedTriggers
      < (getStats statsWitnessState 0).totalTriggers :=
  (getStats_partition statsWitnessState 0).2.2 (mkPlainTrigger 1 "low" 0)
    (by decide) (by decide)

/-- An oracle request is issued by `computeSimilarity` exactly when an API
key is configured. -/
theorem computeSimilarity_queried (apiKey : Option String)
    (oracle : String → String → SimReply) (t1 t2 : String) :
    (computeSimilarity apiKey oracle t1 t2).2 = apiKey.isSome := by
  cases apiKey with
  | none => rfl
  | some k => cases h : oracle t1 t2 <;> simp [computeSimilarity, h]

/-- Case analysis of one phase-2 iteration. -/
theorem semanticStep_eq (apiKey : Option String) (oracle : String → String → SimReply)
    (message : String) (now : Int)
    (acc : List ActivatedTrigger × EngineState × List (String × String))
    (st : ScoredTrigger) :
    semanticStep apiKey oracle message now acc st
      = (if SIMILARITY_THRESHOLD ≤ (computeSimilarity apiKey oracle message st.trigger.word).1
         then (acc.1 ++ [⟨st, some (computeSimilarity apiKey oracle message st.trigger.word).1⟩],
               activateTrigger acc.2.1 st.trigger.id now,
               acc.2.2 ++ (if apiKey.isSome then [(message, st.trigger.word)] else []))
         else (acc.1, acc.2.1,
               acc.2.2 ++ (if apiKey.isSome then [(message, st.trigger.word)] else []))) := by
  simp only [semanticStep, computeSimilarity_queried]
  by_cases hc : SIMILARITY_THRESHOLD ≤ (computeSimilarity apiKey oracle message st.trigger.word).1
  · rw [if_pos hc, if_pos hc]
    cases apiKey <;> simp
  · rw [if_neg hc, if_neg hc]
    cases apiKey <;> simp

/-- The activations produced by the phase-2 fold: exactly the processed
candidates whose similarity reaches the threshold, tagged with it. -/
theorem semantic_foldl_acts (apiKey : Option String) (oracle : String → String → SimReply)
    (message : String) (now : Int) (l : List ScoredTrigger) (acts : List ActivatedTrigger)
    (s : EngineState) (qs : List (String × String)) :
    (l.foldl (semanticStep apiKey oracle message now) (acts, s, qs)).1
      = acts ++ (l.filter (fun st =>
          SIMILARITY_THRESHOLD ≤ (computeSimilarity apiKey oracle message st.trigger.word).1)).map
          (fun st => ⟨st, some (computeSimilarity apiKey oracle message st.trigger.word).1⟩) := by
  induction l generalizing acts s qs with
  | nil => simp
  | cons st rest ih =>
      rw [List.foldl_cons, semanticStep_eq]
      by_cases hc : SIMILARITY_THRESHOLD ≤ (computeSimilarity apiKey oracle message st.trigger.word).1
      · rw [if_pos hc, ih, List.filter_cons, if_pos (by simpa using hc), List.map_cons]
        simp
      · rw [if_neg hc, ih, List.filter_cons, if_neg (by simpa using hc)]

/-- The oracle requests recorded by the phase-2 fold: one per processed
candidate when a key is configured, none otherwise. -/
theorem semantic_foldl_queries (apiKey : Option String) (oracle : String → String → SimReply)
    (message : String) (now : Int) (l : List ScoredTrigger) (acts : List ActivatedTrigger)
    (s : EngineState) (qs : List (String × String)) :
    (l.foldl (semanticStep apiKey oracle message now) (acts, s, qs)).2.2
      = qs ++ (if apiKey.isSome then l.map (fun st => (message, st.trigger.word)) else []) := by
  induction l generalizing acts s qs with
  | nil => cases apiKey <;> simp
  | cons st rest ih =>
      rw [List.foldl_cons, semanticStep_eq]
      by_cases hc : SIMILARITY_THRESHOLD ≤ (computeSimilarity apiKey oracle message st.trigger.word).1
      · rw [if_pos hc, ih]
        cases apiKey <;> simp
      · rw [if_neg hc, ih]
        cases apiKey <;> simp

/-- In a descending-sorted list, every kept element dominates every dropped
element. -/
theorem sorted_take_drop_scoreGe (l : List ScoredTrigger) (h : List.Sorted scoreGe l)
    (k : Nat) : ∀ a ∈ l.take k, ∀ b ∈ l.drop k, b.currentScore ≤ a.currentScore := by
  have h2 : (l.take k ++ l.drop k).Pairwise scoreGe := by
    rw [List.take_append_drop]; exact h
  intro a ha b hb
  exact (List.pairwise_append.mp h2).2.2 a ha b hb

/-- The phase-2 candidate pool is sorted descending by computed score. -/
theorem activeNonMatches_sorted (s : EngineState) (now : Int) (message : String) :
    List.Sorted scoreGe (activeNonMatches s now message) :=
  List.Pairwise.filter _ (List.sorted_insertionSort scoreGe _)

/-- C3: one `scanMessage` call issues at most 5 similarity requests, exactly
one per top-5 (by computed score) active trigger that did not lexically
match; every queried candidate's score dominates every unqueried one's; a
phase-2 candidate is activated exactly when its similarity reaches the
threshold; and every oracle failure mode yields similarity 0 rather than an
error. -/
theorem scanMessage_semantic_cap (apiKey : Option String) (s : EngineState) (now : Int)
    (message : String) (oracle : String → String → SimReply) :
    (scanMessage apiKey s now message oracle).queries.length ≤ 5 ∧
    (scanMessage apiKey s now message oracle).queries
      = (if apiKey.isSome
         then ((activeNonMatches s now message).take 5).map (fun st => (message, st.trigger.word))
         else []) ∧
    (∀ a ∈ (activeNonMatches s now message).take 5,
     ∀ b ∈ (activeNonMatches s now message).drop 5, b.currentScore ≤ a.currentScore) ∧
    (scanMessage apiKey s now message oracle).triggers
      = ((getActiveTriggers s now).filter (fun t => quickMatch message t.trigger)).map
          (fun t => ActivatedTrigger.mk t none)
        ++ (((activeNonMatches s now message).take 5).filter (fun st =>
              SIMILARITY_THRESHOLD
                ≤ (computeSimilarity apiKey oracle message st.trigger.word).1)).map
            (fun st => ⟨st, some (computeSimilarity apiKey oracle message st.trigger.word).1⟩) ∧
    (∀ (key : Option String) (t1 t2 : String),
      oracle t1 t2 = .netErr ∨ oracle t1 t2 = .httpErr ∨ oracle t1 t2 = .nonNumeric →
      (computeSimilarity key oracle t1 t2).1 = 0) := by
  have hq : (scanMessage apiKey s now message oracle).queries
      = (if apiKey.isSome
         then ((activeNonMatches s now message).take 5).map (fun st => (message, st.trigger.word))
         else []) := by
    simp only [scanMessage, semantic_foldl_queries, List.nil_append]
    rfl
  refine ⟨?_, hq, sorted_take_drop_scoreGe _ (activeNonMatches_sorted s now message) 5, ?_, ?_⟩
  · rw [hq]
    cases apiKey with
    | none => simp
    | some k =>
        simp only [Option.isSome_some, if_true, List.length_map]
        exact List.length_take_le _ _
  · simp only [scanMessage, semantic_foldl_acts, List.nil_append]
    rfl
  · intro key t1 t2 h
    cases key with
    | none => rfl
    | some k => rcases h with h | h | h <;> simp [computeSimilarity, h]

/-- Closed instance of `scanMessage_semantic_cap` on a seven-candidate
store with a failing oracle. -/
theorem scanMessage_semantic_cap_witness :
    (scanMessage (some "k") scanWitnessState 0 "zzz" (fun _ _ => .netErr)).queries.length ≤ 5 ∧
    (⟨mkPlainTrigger 5 "aaa5" 100, 100⟩ : ScoredTrigger).currentScore
      ≤ (⟨mkPlainTrigger 0 "aaa0" 100, 100⟩ : ScoredTrigger).currentScore ∧
    (computeSimilarity (some "k") (fun _ _ => SimReply.netErr) "zzz" "aaa0").1 = 0 :=
  ⟨(scanMessage_semantic_cap (some "k") scanWitnessState 0 "zzz" (fun _ _ => .netErr)).1,
   (scanMessage_semantic_cap (some "k") scanWitnessState 0 "zzz" (fun _ _ => .netErr)).2.2.1
      ⟨mkPlainTrigger 0 "aaa0" 100, 100⟩ (by decide)
      ⟨mkPlainTrigger 5 "aaa5" 100, 100⟩ (by decide),
   (scanMessage_semantic_cap (some "k") scanWitnessState 0 "zzz" (fun _ _ => .netErr)).2.2.2.2
      (some "k") "zzz" "aaa0" (Or.inl rfl)⟩

/-- Fold a list while preserving an invariant. -/
theorem foldl_inv {α β : Type} (P : β → Prop) (f : β → α → β)
    (h : ∀ b a, P b → P (f b a)) :
    ∀ (l : List α) (b : β), P b → P (l.foldl f b) := by
  intro l
  induction l with
  | nil => intro b hb; exact hb
  | cons x xs ih => intro b hb; exact ih (f b x) (h b x hb)

/-- A fold of whole-table rewrites is a single map of per-record folds. -/
theorem foldl_map_comm {β γ : Type} (g : β → γ → γ) (l : List β) (xs : List γ) :
    l.foldl (fun acc b => acc.map (g b)) xs
      = xs.map (fun x => l.foldl (fun x b => g b x) x) := by
  induction l generalizing xs with
  | nil => exact (List.map_id' xs).symm
  | cons b rest ih =>
      rw [List.foldl_cons, ih, List.map_map]
      rfl

/-- The per-trigger fold of `createMemory`'s link loop does nothing once the
memory id is already linked. -/
theorem addLink_foldl_noop (memId : Nat) (links : List Nat) (t : Trigger)
    (h : t.memoryLinks.contains memId = true) :
    links.foldl (fun t tid =>
      if t.id = tid ∧ ¬ t.memoryLinks.contains memId then
        { t with memoryLinks := t.memoryLinks ++ [memId] } else t) t = t := by
  induction links with
  | nil => rfl
  | cons a rest ih =>
      have hmem : memId ∈ t.memoryLinks := by simpa using h
      rw [List.foldl_cons, if_neg (by simp [hmem])]
      exact ih

/-- The per-trigger fold of `createMemory`'s link loop appends the (fresh)
memory id exactly when the trigger's id occurs among the links. -/
theorem addLink_foldl_eq (memId : Nat) (links : List Nat) (t : Trigger)
    (h : t.memoryLinks.contains memId = false) :
    links.foldl (fun t tid =>
      if t.id = tid ∧ ¬ t.memoryLinks.contains memId then
        { t with memoryLinks := t.memoryLinks ++ [memId] } else t) t
      = if t.id ∈ links then { t with memoryLinks := t.memoryLinks ++ [memId] } else t := by
  have hnotmem : memId ∉ t.memoryLinks := by
    intro hmem
    have : t.memoryLinks.contains memId = true := by simpa using hmem
    rw [this] at h
    exact Bool.noConfusion h
  induction links with
  | nil => simp
  | cons a rest ih =>
      rw [List.foldl_cons]
      by_cases hta : t.id = a
      · rw [if_pos ⟨hta, by simp [hnotmem]⟩]
        rw [addLink_foldl_noop _ _ _ (by simp)]
        rw [if_pos (List.mem_cons.mpr (Or.inl hta))]
      · rw [if_neg (by simp [hta]), ih]
        by_cases hmem : t.id ∈ rest
        · rw [if_pos hmem, if_pos (List.mem_cons.mpr (Or.inr hmem))]
        · rw [if_neg hmem, if_neg (by simp [hta, hmem])]

/-- The per-trigger fold of `deleteMemory`'s cleanup loop does nothing once
the memory id is already filtered out. -/
theorem removeLink_foldl_stable (memId : Nat) (tids : List Nat) (t : Trigger)
    (h : t.memoryLinks.filter (fun mId => mId ≠ memId) = t.memoryLinks) :
    tids.foldl (fun t tid =>
      if t.id = tid then
        { t with memoryLinks := t.memoryLinks.filter (fun mId => mId ≠ memId) } else t) t
      = t := by
  induction tids with
  | nil => rfl
  | cons a rest ih =>
      rw [List.foldl_cons]
      have hstep : (if t.id = a then
          ({ t with memoryLinks := t.memoryLinks.filter (fun mId => mId ≠ memId) } : Trigger)
          else t) = t := by
        split
        · rw [h]
        · rfl
      rw [hstep]
      exact ih

/-- The per-trigger fold of `deleteMemory`'s cleanup loop filters the memory
id out exactly when the trigger's id occurs among the memory's links. -/
theorem removeLink_foldl_eq (memId : Nat) (tids : List Nat) (t : Trigger) :
    tids.foldl (fun t tid =>
      if t.id = tid then
        { t with memoryLinks := t.memoryLinks.filter (fun mId => mId ≠ memId) } else t) t
      = if t.id ∈ tids then
          { t with memoryLinks := t.memoryLinks.filter (fun mId => mId ≠ memId) } else t := by
  induction tids with
  | nil => simp
  | cons a rest ih =>
      rw [List.foldl_cons]
      by_cases hta : t.id = a
      · rw [if_pos hta]
        rw [removeLink_foldl_stable _ _ _ (by rw [List.filter_filter]; simp)]
        rw [if_pos (List.mem_cons.mpr (Or.inl hta))]
      · rw [if_neg hta, ih]
        by_cases hmem : t.id ∈ rest
        · rw [if_pos hmem, if_pos (List.mem_cons.mpr (Or.inr hmem))]
        · rw [if_neg hmem, if_neg (by simp [hta, hmem])]

/-- The per-memory fold of `deleteTrigger`'s cleanup loop, stable case. -/
theorem removeTLink_foldl_stable (triggerId : Nat) (mids : List Nat) (m : Memory)
    (h : m.triggerLinks.filter (fun tId => tId ≠ triggerId) = m.triggerLinks) :
    mids.foldl (fun m mid =>
      if m.id = mid then
        { m with triggerLinks := m.triggerLinks.filter (fun tId => tId ≠ triggerId) } else m) m
      = m := by
  induction mids with
  | nil => rfl
  | cons a rest ih =>
      rw [List.foldl_cons]
      have hstep : (if m.id = a then
          ({ m with triggerLinks := m.triggerLinks.filter (fun tId => tId ≠ triggerId) } : Memory)
          else m) = m := by
        split
        · rw [h]
        · rfl
      rw [hstep]
      exact ih

/-- The per-memory fold of `deleteTrigger`'s cleanup loop filters the
trigger id out exactly when the memory's id occurs among the links. -/
theorem removeTLink_foldl_eq (triggerId : Nat) (mids : List Nat) (m : Memory) :
    mids.foldl (fun m mid =>
      if m.id = mid then
        { m with triggerLinks := m.triggerLinks.filter (fun tId => tId ≠ triggerId) } else m) m
      = if m.id ∈ mids then
          { m with triggerLinks := m.triggerLinks.filter (fun tId => tId ≠ triggerId) } else m := by
  induction mids with
  | nil => simp
  | cons a rest ih =>
      rw [List.foldl_cons]
      by_cases hta : m.id = a
      · rw [if_pos hta]
        rw [removeTLink_foldl_stable _ _ _ (by rw [List.filter_filter]; simp)]
        rw [if_pos (List.mem_cons.mpr (Or.inl hta))]
      · rw [if_neg hta, ih]
        by_cases hmem : m.id ∈ rest
        · rw [if_pos hmem, if_pos (List.mem_cons.mpr (Or.inr hmem))]
        · rw [if_neg hmem, if_neg (by simp [hta, hmem])]

/-- Well-formedness of an engine state: ids are below the fresh-id counter
and pairwise distinct, links are symmetric, and links only reference live
records.  The last three fields are `linkInv`. -/
structure Wf (s : EngineState) : Prop where
  trigIdLt : ∀ t ∈ s.triggers, t.id < s.nextId
  memIdLt : ∀ m ∈ s.memories, m.id < s.nextId
  trigNodup : (s.triggers.map Trigger.id).Nodup
  memNodup : (s.memories.map Memory.id).Nodup
  sym : ∀ t ∈ s.triggers, ∀ m ∈ s.memories, (m.id ∈ t.memoryLinks ↔ t.id ∈ m.triggerLinks)
  memLive : ∀ t ∈ s.triggers, ∀ mid ∈ t.memoryLinks, ∃ m ∈ s.memories, m.id = mid
  trigLive : ∀ m ∈ s.memories, ∀ tid ∈ m.triggerLinks, ∃ t ∈ s.triggers, t.id = tid

theorem wf_linkInv {s : EngineState} (h : Wf s) : linkInv s :=
  ⟨h.sym, h.memLive, h.trigLive⟩

theorem wf_empty : Wf emptyState := by
  constructor <;> simp [emptyState]

theorem wf_save {s : EngineState} (h : Wf s) : Wf (save s) :=
  ⟨h.trigIdLt, h.memIdLt, h.trigNodup, h.memNodup, h.sym, h.memLive, h.trigLive⟩

/-- Mapping triggers through a function that preserves id and links
preserves well-formedness. -/
theorem wf_map_triggers {s : EngineState} (f : Trigger → Trigger)
    (hid : ∀ t, (f t).id = t.id) (hml : ∀ t, (f t).memoryLinks = t.memoryLinks)
    (h : Wf s) : Wf { s with triggers := s.triggers.map f } := by
  have hids : (s.triggers.map f).map Trigger.id = s.triggers.map Trigger.id := by
    rw [List.map_map]
    exact List.map_congr_left (fun t _ => hid t)
  refine ⟨?_, h.memIdLt, ?_, h.memNodup, ?_, ?_, ?_⟩
  · intro t ht
    obtain ⟨u, hu, rfl⟩ := List.mem_map.mp ht
    rw [hid]
    exact h.trigIdLt u hu
  · rw [hids]
    exact h.trigNodup
  · intro t ht m hm
    obtain ⟨u, hu, rfl⟩ := List.mem_map.mp ht
    rw [hid, hml]
    exact h.sym u hu m hm
  · intro t ht mid hmid
    obtain ⟨u, hu, rfl⟩ := List.mem_map.mp ht
    rw [hml] at hmid
    exact h.memLive u hu mid hmid
  · intro m hm tid htid
    obtain ⟨u, hu, hu2⟩ := h.trigLive m hm tid htid
    exact ⟨f u, List.mem_map_of_mem f hu, by rw [hid]; exact hu2⟩

theorem wf_activateTrigger (s : EngineState) (id : Nat) (now : Int) (h : Wf s) :
    Wf (activateTrigger s id now) := by
  unfold activateTrigger
  split
  · exact wf_save (wf_map_triggers _ (fun t => by split <;> rfl) (fun t => by split <;> rfl) h)
  · exact h

theorem wf_createTrigger (s : EngineState) (word category : String) (importance now : Int)
    (h : Wf s) : Wf (createTrigger s word category importance now).2 := by
  have htr : (createTrigger s word category importance now).2.triggers
      = s.triggers ++ [(createTrigger s word category importance now).1] := rfl
  refine ⟨?_, ?_, ?_, h.memNodup, ?_, ?_, ?_⟩
  · intro t ht
    rw [htr] at ht
    rcases List.mem_append.mp ht with h1 | h1
    · exact Nat.lt_succ_of_lt (h.trigIdLt t h1)
    · have : t = (createTrigger s word category importance now).1 := by simpa using h1
      subst this
      exact Nat.lt_succ_self _
  · intro m hm
    exact Nat.lt_succ_of_lt (h.memIdLt m hm)
  · rw [htr, List.map_append]
    refine List.Nodup.append h.trigNodup (by simp) ?_
    intro a ha hb
    obtain ⟨u, hu, rfl⟩ := List.mem_map.mp ha
    have h1 : u.id < s.nextId := h.trigIdLt u hu
    have h2 : u.id = s.nextId := by simpa using hb
    omega
  · intro t ht m hm
    rw [htr] at ht
    rcases List.mem_append.mp ht with h1 | h1
    · exact h.sym t h1 m hm
    · have : t = (createTrigger s word category importance now).1 := by simpa using h1
      subst this
      constructor
      · intro hfalse
        simp [createTrigger] at hfalse
      · intro hin
        obtain ⟨u, hu, hu2⟩ := h.trigLive m hm _ hin
        have h1 : u.id < s.nextId := h.trigIdLt u hu
        have h2 : u.id = s.nextId := hu2
        omega
  · intro t ht mid hmid
    rw [htr] at ht
    rcases List.mem_append.mp ht with h1 | h1
    · exact h.memLive t h1 mid hmid
    · have : t = (createTrigger s word category importance now).1 := by simpa using h1
      subst this
      simp [createTrigger] at hmid
  · intro m hm tid htid
    obtain ⟨u, hu, hu2⟩ := h.trigLive m hm tid htid
    exact ⟨u, by rw [htr]; exact List.mem_append_left _ hu, hu2⟩

/-- The net effect of `createMemory` on the trigger table, given that the
new memory id is fresh for every trigger. -/
theorem createMemory_triggers_eq (s : EngineState) (content category : String)
    (importance : Int) (links : List Nat) (now : Int)
    (hfresh : ∀ t ∈ s.triggers, t.memoryLinks.contains s.nextId = false) :
    (createMemory s content category importance links now).2.triggers
      = s.triggers.map (fun t => if t.id ∈ links
          then { t with memoryLinks := t.memoryLinks ++ [s.nextId] } else t) := by
  show links.foldl (fun trs tid => addMemoryLink s.nextId tid trs) s.triggers = _
  simp only [addMemoryLink]
  rw [foldl_map_comm (fun tid t =>
    if t.id = tid ∧ ¬ t.memoryLinks.contains s.nextId then
      { t with memoryLinks := t.memoryLinks ++ [s.nextId] } else t) links s.triggers]
  exact List.map_congr_left (fun t ht => addLink_foldl_eq _ _ _ (hfresh t ht))

theorem wf_createMemory (s : EngineState) (content category : String) (importance : Int)
    (links : List Nat) (now : Int) (h : Wf s)
    (hv : ∀ tid ∈ links, ∃ t ∈ s.triggers, t.id = tid) :
    Wf (createMemory s content category importance links now).2 := by
  have hfresh : ∀ t ∈ s.triggers, t.memoryLinks.contains s.nextId = false := by
    intro t ht
    by_contra hc
    have hc2 : s.nextId ∈ t.memoryLinks := by
      have := eq_true_of_ne_false hc
      simpa using this
    obtain ⟨m, hm, hm2⟩ := h.memLive t ht _ hc2
    have := h.memIdLt m hm
    omega
  have htr := createMemory_triggers_eq s content category importance links now hfresh
  have hmems : (createMemory s content category importance links now).2.memories
      = s.memories ++ [⟨s.nextId, content, category, importance, links, now, 0⟩] := rfl
  have hnext : (createMemory s content category importance links now).2.nextId
      = s.nextId + 1 := rfl
  have hfid : ∀ t : Trigger, ((fun t => if t.id ∈ links
      then { t with memoryLinks := t.memoryLinks ++ [s.nextId] } else t) t).id = t.id := by
    intro t
    show (if t.id ∈ links
        then ({ t with memoryLinks := t.memoryLinks ++ [s.nextId] } : Trigger) else t).id = t.id
    split <;> rfl
  refine ⟨?_, ?_, ?_, ?_, ?_, ?_, ?_⟩
  · intro t ht
    rw [htr] at ht
    rw [hnext]
    obtain ⟨u, hu, rfl⟩ := List.mem_map.mp ht
    rw [hfid]
    exact Nat.lt_succ_of_lt (h.trigIdLt u hu)
  · intro m hm
    rw [hmems] at hm
    rw [hnext]
    rcases List.mem_append.mp hm with h1 | h1
    · exact Nat.lt_succ_of_lt (h.memIdLt m h1)
    · have : m = ⟨s.nextId, content, category, importance, links, now, 0⟩ := by simpa using h1
      subst this
      exact Nat.lt_succ_self _
  · rw [htr, List.map_map]
    have : (Trigger.id ∘ fun t => if t.id ∈ links
        then { t with memoryLinks := t.memoryLinks ++ [s.nextId] } else t)
        = Trigger.id := funext (fun t => hfid t)
    rw [this]
    exact h.trigNodup
  · rw [hmems, List.map_append]
    refine List.Nodup.append h.memNodup (by simp) ?_
    intro a ha hb
    obtain ⟨u, hu, rfl⟩ := List.mem_map.mp ha
    have h1 : u.id < s.nextId := h.memIdLt u hu
    have h2 : u.id = s.nextId := by simpa using hb
    omega
  · intro t ht m hm
    rw [htr] at ht
    rw [hmems] at hm
    obtain ⟨u, hu, rfl⟩ := List.mem_map.mp ht
    rw [hfid]
    rcases List.mem_append.mp hm with h1 | h1
    · -- an old memory
      have hne : m.id ≠ s.nextId := by
        have := h.memIdLt m h1
        omega
      by_cases hc : u.id ∈ links
      · rw [if_pos hc]
        show m.id ∈ u.memoryLinks ++ [s.nextId] ↔ u.id ∈ m.triggerLinks
        rw [List.mem_append]
        simp only [List.mem_singleton]
        rw [or_iff_left hne]
        exact h.sym u hu m h1
      · rw [if_neg hc]
        exact h.sym u hu m h1
    · -- the new memory
      have : m = ⟨s.nextId, content, category, importance, links, now, 0⟩ := by simpa using h1
      subst this
      by_cases hc : u.id ∈ links
      · rw [if_pos hc]
        show s.nextId ∈ u.memoryLinks ++ [s.nextId] ↔ u.id ∈ links
        simp [hc]
      · rw [if_neg hc]
        show s.nextId ∈ u.memoryLinks ↔ u.id ∈ links
        have hnot : s.nextId ∉ u.memoryLinks := by
          intro hmem
          have h2 : u.memoryLinks.contains s.nextId = true := by simpa using hmem
          have h3 := hfresh u hu
          rw [h2] at h3
          exact Bool.noConfusion h3
        exact ⟨fun hin => absurd hin hnot, fun hin => absurd hin hc⟩
  · intro t ht mid hmid
    rw [htr] at ht
    rw [hmems]
    obtain ⟨u, hu, rfl⟩ := List.mem_map.mp ht
    by_cases hc : u.id ∈ links
    · rw [if_pos hc] at hmid
      have hmid2 : mid ∈ u.memoryLinks ++ [s.nextId] := hmid
      rcases List.mem_append.mp hmid2 with h1 | h1
      · obtain ⟨m, hm, hm2⟩ := h.memLive u hu mid h1
        exact ⟨m, List.mem_append_left _ hm, hm2⟩
      · have : mid = s.nextId := by simpa using h1
        subst this
        exact ⟨⟨s.nextId, content, category, importance, links, now, 0⟩,
          List.mem_append_right _ (by simp), rfl⟩
    · rw [if_neg hc] at hmid
      obtain ⟨m, hm, hm2⟩ := h.memLive u hu mid hmid
      exact ⟨m, List.mem_append_left _ hm, hm2⟩
  · intro m hm tid htid
    rw [hmems] at hm
    rw [htr]
    rcases List.mem_append.mp hm with h1 | h1
    · obtain ⟨u, hu, hu2⟩ := h.trigLive m h1 tid htid
      exact ⟨_, List.mem_map_of_mem _ hu, by rw [hfid]; exact hu2⟩
    · have : m = ⟨s.nextId, content, category, importance, links, now, 0⟩ := by simpa using h1
      subst this
      obtain ⟨u, hu, hu2⟩ := hv tid htid
      exact ⟨_, List.mem_map_of_mem _ hu, by rw [hfid]; exact hu2⟩

theorem wf_deleteMemory (s : EngineState) (id : Nat) (h : Wf s) : Wf (deleteMemory s id) := by
  unfold deleteMemory
  cases hf : s.memories.find? (fun m => m.id = id) with
  | none => exact h
  | some memory =>
      have hmm : memory ∈ s.memories := List.mem_of_find?_eq_some hf
      have hmemid : memory.id = id := by simpa using List.find?_some hf
      have htr : memory.triggerLinks.foldl (fun trs tid => removeMemoryLink id tid trs) s.triggers
          = s.triggers.map (fun t => if t.id ∈ memory.triggerLinks
              then { t with memoryLinks := t.memoryLinks.filter (fun mId => mId ≠ id) }
              else t) := by
        simp only [removeMemoryLink]
        rw [foldl_map_comm (fun tid t => if t.id = tid
            then { t with memoryLinks := t.memoryLinks.filter (fun mId => mId ≠ id) } else t)
          memory.triggerLinks s.triggers]
        exact List.map_congr_left (fun t _ => removeLink_foldl_eq _ _ _)
      apply wf_save
      rw [htr]
      have hfid : ∀ t : Trigger, ((fun t => if t.id ∈ memory.triggerLinks
          then { t with memoryLinks := t.memoryLinks.filter (fun mId => mId ≠ id) } else t) t).id
            = t.id := by
        intro t
        show (if t.id ∈ memory.triggerLinks
            then ({ t with memoryLinks := t.memoryLinks.filter (fun mId => mId ≠ id) } : Trigger)
            else t).id = t.id
        split <;> rfl
      refine ⟨?_, ?_, ?_, ?_, ?_, ?_, ?_⟩
      · intro t ht
        obtain ⟨u, hu, rfl⟩ := List.mem_map.mp ht
        rw [hfid]
        exact h.trigIdLt u hu
      · intro m hm
        exact h.memIdLt m (List.mem_of_mem_filter hm)
      · rw [List.map_map]
        have : (Trigger.id ∘ fun t => if t.id ∈ memory.triggerLinks
            then { t with memoryLinks := t.memoryLinks.filter (fun mId => mId ≠ id) } else t)
            = Trigger.id := funext (fun t => hfid t)
        rw [this]
        exact h.trigNodup
      · exact List.Nodup.sublist (List.Sublist.map _ (List.filter_sublist _)) h.memNodup
      · intro t ht m hm
        obtain ⟨u, hu, rfl⟩ := List.mem_map.mp ht
        have hmold : m ∈ s.memories := List.mem_of_mem_filter hm
        have hmne : m.id ≠ id := by simpa using List.of_mem_filter hm
        rw [hfid]
        by_cases hc : u.id ∈ memory.triggerLinks
        · rw [if_pos hc]
          show m.id ∈ u.memoryLinks.filter (fun mId => mId ≠ id) ↔ u.id ∈ m.triggerLinks
          constructor
          · intro hx
            exact (h.sym u hu m hmold).mp (List.mem_of_mem_filter hx)
          · intro hx
            exact List.mem_filter.mpr ⟨(h.sym u hu m hmold).mpr hx, by simp [hmne]⟩
        · rw [if_neg hc]
          exact h.sym u hu m hmold
      · intro t ht mid hmid
        obtain ⟨u, hu, rfl⟩ := List.mem_map.mp ht
        by_cases hc : u.id ∈ memory.triggerLinks
        · rw [if_pos hc] at hmid
          have hmid2 : mid ∈ u.memoryLinks.filter (fun mId => mId ≠ id) := hmid
          have h1 := List.mem_of_mem_filter hmid2
          have hne : mid ≠ id := by simpa using List.of_mem_filter hmid2
          obtain ⟨m, hm, hm2⟩ := h.memLive u hu mid h1
          exact ⟨m, List.mem_filter.mpr ⟨hm, by simp [hm2, hne]⟩, hm2⟩
        · rw [if_neg hc] at hmid
          have hne : mid ≠ id := by
            intro heq
            subst heq
            have h2 : memory.id ∈ u.memoryLinks := by rw [hmemid]; exact hmid
            exact hc ((h.sym u hu memory hmm).mp h2)
          obtain ⟨m, hm, hm2⟩ := h.memLive u hu mid hmid
          exact ⟨m, List.mem_filter.mpr ⟨hm, by simp [hm2, hne]⟩, hm2⟩
      · intro m hm tid htid
        have hmold : m ∈ s.memories := List.mem_of_mem_filter hm
        obtain ⟨u, hu, hu2⟩ := h.trigLive m hmold tid htid
        exact ⟨_, List.mem_map_of_mem _ hu, by rw [hfid]; exact hu2⟩

theorem wf_deleteTrigger (s : EngineState) (id : Nat) (h : Wf s) : Wf (deleteTrigger s id) := by
  unfold deleteTrigger
  cases hf : s.triggers.find? (fun t => t.id = id) with
  | none => exact h
  | some trigger =>
      have htm : trigger ∈ s.triggers := List.mem_of_find?_eq_some hf
      have htrid : trigger.id = id := by simpa using List.find?_some hf
      have hmems : trigger.memoryLinks.foldl (fun mems mid => removeTriggerLink id mid mems) s.memories
          = s.memories.map (fun m => if m.id ∈ trigger.memoryLinks
              then { m with triggerLinks := m.triggerLinks.filter (fun tId => tId ≠ id) }
              else m) := by
        simp only [removeTriggerLink]
        rw [foldl_map_comm (fun mid m => if m.id = mid
            then { m with triggerLinks := m.triggerLinks.filter (fun tId => tId ≠ id) } else m)
          trigger.memoryLinks s.memories]
        exact List.map_congr_left (fun m _ => removeTLink_foldl_eq _ _ _)
      apply wf_save
      rw [hmems]
      have hfid : ∀ m : Memory, ((fun m => if m.id ∈ trigger.memoryLinks
          then { m with triggerLinks := m.triggerLinks.filter (fun tId => tId ≠ id) } else m) m).id
            = m.id := by
        intro m
        show (if m.id ∈ trigger.memoryLinks
            then ({ m with triggerLinks := m.triggerLinks.filter (fun tId => tId ≠ id) } : Memory)
            else m).id = m.id
        split <;> rfl
      refine ⟨?_, ?_, ?_, ?_, ?_, ?_, ?_⟩
      · intro t ht
        exact h.trigIdLt t (List.mem_of_mem_filter ht)
      · intro m hm
        obtain ⟨u, hu, rfl⟩ := List.mem_map.mp hm
        rw [hfid]
        exact h.memIdLt u hu
      · exact List.Nodup.sublist (List.Sublist.map _ (List.filter_sublist _)) h.trigNodup
      · rw [List.map_map]
        have : (Memory.id ∘ fun m => if m.id ∈ trigger.memoryLinks
            then { m with triggerLinks := m.triggerLinks.filter (fun tId => tId ≠ id) } else m)
            = Memory.id := funext (fun m => hfid m)
        rw [this]
        exact h.memNodup
      · intro t ht m hm
        have htold : t ∈ s.triggers := List.mem_of_mem_filter ht
        have htne : t.id ≠ id := by simpa using List.of_mem_filter ht
        obtain ⟨u, hu, rfl⟩ := List.mem_map.mp hm
        by_cases hc : u.id ∈ trigger.memoryLinks
        · rw [if_pos hc]
          show u.id ∈ t.memoryLinks ↔ t.id ∈ u.triggerLinks.filter (fun tId => tId ≠ id)
          constructor
          · intro hx
            exact List.mem_filter.mpr ⟨(h.sym t htold u hu).mp hx, by simp [htne]⟩
          · intro hx
            exact (h.sym t htold u hu).mpr (List.mem_of_mem_filter hx)
        · rw [if_neg hc]
          exact h.sym t htold u hu
      · intro t ht mid hmid
        have htold : t ∈ s.triggers := List.mem_of_mem_filter ht
        obtain ⟨u, hu, hu2⟩ := h.memLive t htold mid hmid
        exact ⟨_, List.mem_map_of_mem _ hu, by rw [hfid]; exact hu2⟩
      · intro m hm tid htid
        obtain ⟨u, hu, rfl⟩ := List.mem_map.mp hm
        by_cases hc : u.id ∈ trigger.memoryLinks
        · rw [if_pos hc] at htid
          have htid2 : tid ∈ u.triggerLinks.filter (fun tId => tId ≠ id) := htid
          have h1 := List.mem_of_mem_filter htid2
          have hne : tid ≠ id := by simpa using List.of_mem_filter htid2
          obtain ⟨t, ht, ht2⟩ := h.trigLive u hu tid h1
          exact ⟨t, List.mem_filter.mpr ⟨ht, by simp [ht2, hne]⟩, ht2⟩
        · rw [if_neg hc] at htid
          have hne : tid ≠ id := by
            intro heq
            subst heq
            have h2 : trigger.id ∈ u.triggerLinks := by rw [htrid]; exact htid
            exact hc ((h.sym trigger htm u hu).mpr h2)
          obtain ⟨t, ht, ht2⟩ := h.trigLive u hu tid htid
          exact ⟨t, List.mem_filter.mpr ⟨ht, by simp [ht2, hne]⟩, ht2⟩

/-- A trigger with the given id is present. -/
def hasTriggerId (s : EngineState) (tid : Nat) : Prop := ∃ t ∈ s.triggers, t.id = tid

theorem hasTriggerId_map {s : EngineState} (f : Trigger → Trigger)
    (hid : ∀ t, (f t).id = t.id) {tid : Nat} (h : hasTriggerId s tid) :
    hasTriggerId { s with triggers := s.triggers.map f } tid := by
  obtain ⟨t, ht, ht2⟩ := h
  exact ⟨f t, List.mem_map_of_mem f ht, by rw [hid]; exact ht2⟩

theorem hasTriggerId_activate (s : EngineState) (i : Nat) (now : Int) {tid : Nat}
    (h : hasTriggerId s tid) : hasTriggerId (activateTrigger s i now) tid := by
  unfold activateTrigger
  split
  · exact hasTriggerId_map _ (fun t => by split <;> rfl) h
  · exact h

theorem hasTriggerId_createTrigger (s : EngineState) (word category : String)
    (importance now : Int) {tid : Nat} (h : hasTriggerId s tid) :
    hasTriggerId (createTrigger s word category importance now).2 tid := by
  obtain ⟨t, ht, ht2⟩ := h
  exact ⟨t, List.mem_append_left _ ht, ht2⟩

/-- The keep-the-last-match loop of `extractAndStore` only returns a member
of the table. -/
theorem findTriggerByWord_aux (word : String) (t : Trigger) :
    ∀ (trs : List Trigger) (r : Option Trigger),
      trs.foldl (fun found tr => if tr.word = word then some tr else found) r = some t →
      t ∈ trs ∨ r = some t := by
  intro trs
  induction trs with
  | nil => intro r hh; exact Or.inr hh
  | cons a rest ih =>
      intro r hh
      rw [List.foldl_cons] at hh
      rcases ih _ hh with h3 | h3
      · exact Or.inl (List.mem_cons_of_mem _ h3)
      · by_cases ha : a.word = word
        · rw [if_pos ha] at h3
          cases h3
          exact Or.inl (List.mem_cons_self _ _)
        · rw [if_neg ha] at h3
          exact Or.inr h3

theorem findTriggerByWord_mem (trs : List Trigger) (word : String) (t : Trigger)
    (h : findTriggerByWord trs word = some t) : t ∈ trs := by
  rcases findTriggerByWord_aux word t trs none h with h3 | h3
  · exact h3
  · exact absurd h3 (by simp)

/-- One reconciliation step preserves well-formedness and keeps every
collected trigger id pointing at a live trigger. -/
theorem extractInv_step (now : Int) (acc : List Nat × EngineState) (et : ExtractedTrigger)
    (h : Wf acc.2 ∧ ∀ i ∈ acc.1, hasTriggerId acc.2 i) :
    Wf (extractTriggerStep now acc et).2
      ∧ ∀ i ∈ (extractTriggerStep now acc et).1,
          hasTriggerId (extractTriggerStep now acc et).2 i := by
  obtain ⟨hw, hids⟩ := h
  simp only [extractTriggerStep]
  split
  · rename_i existingTrigger hf
    constructor
    · exact wf_map_triggers _ (fun t => by split <;> rfl) (fun t => by split <;> rfl)
        (wf_activateTrigger _ _ _ hw)
    · intro i hi
      rcases List.mem_append.mp hi with h1 | h1
      · exact hasTriggerId_map _ (fun t => by split <;> rfl)
          (hasTriggerId_activate _ _ _ (hids i h1))
      · have : i = existingTrigger.id := by simpa using h1
        subst this
        exact hasTriggerId_map _ (fun t => by split <;> rfl)
          (hasTriggerId_activate _ _ _ ⟨existingTrigger, findTriggerByWord_mem _ _ _ hf, rfl⟩)
  · rename_i hf
    split
    · constructor
      · exact wf_map_triggers _ (fun t => by split <;> rfl) (fun t => by split <;> rfl)
          (wf_createTrigger _ _ _ _ _ hw)
      · intro i hi
        rcases List.mem_append.mp hi with h1 | h1
        · exact hasTriggerId_map _ (fun t => by split <;> rfl)
            (hasTriggerId_createTrigger _ _ _ _ _ (hids i h1))
        · have : i = (createTrigger acc.2 (jsTrim (jsToLower et.mot)) et.categorie 5 now).1.id := by
            simpa using h1
          subst this
          apply hasTriggerId_map _ (fun t => by split <;> rfl)
          exact ⟨_, List.mem_append_right _ (List.mem_singleton_self _), rfl⟩
    · exact ⟨hw, hids⟩

theorem wf_extractAndStore (apiKey : Option String) (s : EngineState) (reply : ExtractReply)
    (now : Int) (h : Wf s) : Wf (extractAndStore apiKey s reply now).state := by
  cases apiKey with
  | none => exact h
  | some k =>
      cases reply with
      | netErr => exact h
      | httpErr => exact h
      | noJson => exact h
      | badJson => exact h
      | ok extracted =>
          simp only [extractAndStore]
          by_cases him : extracted.important
          · rw [if_pos him]
            have hr1 := foldl_inv
              (fun acc : List Nat × EngineState => Wf acc.2 ∧ ∀ i ∈ acc.1, hasTriggerId acc.2 i)
              (extractTriggerStep now)
              (fun b a hb => extractInv_step now b a hb)
              (extracted.triggers.getD []) ([], s) ⟨h, by simp⟩
            apply wf_save
            split
            · rename_i memoire hm
              split
              · exact wf_createMemory _ _ _ _ _ _ hr1.1 (fun tid htid => hr1.2 tid htid)
              · exact hr1.1
            · exact hr1.1
          · rw [if_neg him]
            exact h

theorem wf_step (s : EngineState) (now : Int) (op : Op) (h : Wf s) (hv : opValid s op) :
    Wf (step s now op) := by
  cases op with
  | opCreateTrigger word category importance => exact wf_createTrigger _ _ _ _ _ h
  | opCreateMemory content category importance links => exact wf_createMemory _ _ _ _ _ _ h hv
  | opExtract apiKey reply => exact wf_extractAndStore _ _ _ _ h
  | opDeleteTrigger id => exact wf_deleteTrigger _ _ h
  | opDeleteMemory id => exact wf_deleteMemory _ _ h

theorem wf_run (ops : List (Int × Op)) : ∀ s, Wf s → validRun s ops → Wf (run s ops) := by
  induction ops with
  | nil => intro s h _; exact h
  | cons op rest ih => intro s h hv; exact ih _ (wf_step _ _ _ h hv.1) hv.2

/-- C4 as stated is false on the code: `createMemory` stores its
`linkedTriggerIds` argument verbatim into the new memory's `triggerLinks`,
so a single `createMemory` call naming a non-existent trigger id leaves a
dangling reference. -/
theorem linkInv_counterexample :
    ¬ linkInv (run emptyState [(0, .opCreateMemory "orphan" "autre" 5 [7])]) := by
  decide

/-- C4 amended: starting from the empty store, every sequence of engine
operations in which each `createMemory` call only names trigger ids present
at that point (as the engine's own extraction path always does) maintains
link symmetry and leaves no dangling id in either direction. -/
theorem linkInv_valid_runs (ops : List (Int × Op)) (h : validRun emptyState ops) :
    linkInv (run emptyState ops) :=
  wf_linkInv (wf_run ops emptyState wf_empty h)

/-- Closed instance of `linkInv_valid_runs` on a create/link/delete run. -/
theorem linkInv_valid_runs_witness :
    linkInv (run emptyState
      [(0, .opCreateTrigger "chat" "autre" 5),
       (1, .opCreateMemory "Il a un chat" "autre" 5 [0]),
       (2, .opDeleteTrigger 0)]) :=
  linkInv_valid_runs _ (by decide)

end MemoryEngine
